import Mathlib

/-!
Verification of the hide-list membership engine
(`src/native/jni/zygisk/hide/utils.cpp`).

The C++ file is shallowly embedded below.  The two global structures
(`pkg_to_procs_`, `app_id_to_pkgs_`), the enabled flag, the cached registry
inode and the cached manager app id become fields of `HideState`.  External
collaborators (the filesystem, the live process table, the relational store,
the monitor thread) are passed in as an `Env` record of oracles, matching the
spec's "external collaborators, interfaces only" scoping.  `std::map` /
`std::set` become association lists / duplicate-free lists; only traversal
order for listing depends on the comparator and no claim is about listing
order.  Process kills are modelled by returning the list of killed pids.
-/

namespace HideEngine

/-- Modelled from the spec: the reserved wildcard package token for sandboxed
worker processes (`ISOLATED_MAGIC`, defined in a header that is not under
`src/`).  Every use in the source only compares a package name against the
token, so its exact spelling is irrelevant to the claims. -/
def ISOLATED_MAGIC : String := "isolated"

/-- From the source (`str_eql`, line 134): exact string equality. -/
def str_eql (s ss : String) : Bool := s == ss

/-- Modelled from the spec: `str_starts s ss` (shared string util, not under
`src/`) holds when `s` starts with `ss`.  The direction is pinned by the
spec's section 4.2: the isolated-package reaper "kill all live processes
whose name *starts with* proc" instantiates `proc_name_match` with this
function applied as `str_starts cmdline pattern`, and by section 3: stored
isolated entries "are process-name *prefixes*" of the live names. -/
def str_starts (s ss : String) : Bool := ss.data.isPrefixOf s.data

/-- Modelled from the spec: `str_ends s ss` (shared string util, not under
`src/`) holds when `s` ends with `ss` (section 9: "safe-suffix-match"). -/
def str_ends (s ss : String) : Bool := ss.data.isSuffixOf s.data

/-- Modelled from the spec: `to_app_id` (shared util, not under `src/`)
derives the app-identity class from a numeric uid; the glossary calls it
"the numeric identity class derived from a process's owning user identity".
Per-user uid spaces are 100000 wide, so the class is `uid % 100000`. -/
def toAppId (uid : Nat) : Int := ((uid % 100000 : Nat) : Int)

/-- Modelled from the spec: the default `max_len` argument of
`is_hide_target` is fixed in a header that is not under `src/`; the claims
never depend on its value. -/
def default_max_len : Nat := 1024

/-! ### Validator (source lines 147-181) -/

/-- Characters allowed in a normal package name and in the pre-colon part of
an isolated process name: alphanumeric, underscore or dot. -/
def pkgAllowedChar (c : Char) : Bool := c.isAlphanum || c == '_' || c == '.'

/-- Characters allowed in a normal process name: alphanumeric, underscore,
colon or dot. -/
def procAllowedChar (c : Char) : Bool :=
  c.isAlphanum || c == '_' || c == ':' || c == '.'

/-- The `pkg` scanning loop of `validate` (lines 162-171): `pkg_valid`
starts false, is left unchanged by alphanumerics and underscores, becomes
true at a dot, and any other character terminates the loop with false. -/
def pkg_scan : List Char → Bool → Bool
  | [], acc => acc
  | c :: rest, acc =>
    if c.isAlphanum || c == '_' then pkg_scan rest acc
    else if c == '.' then pkg_scan rest true
    else false

/-- The normal-package `proc` scanning loop of `validate` (lines 173-178). -/
def proc_scan_normal : List Char → Bool
  | [] => true
  | c :: rest =>
    if c.isAlphanum || c == '_' || c == ':' || c == '.' then proc_scan_normal rest
    else false

/-- The isolated-package `proc` scanning loop of `validate` (lines 153-160):
a colon stops the scan with success; a disallowed character fails. -/
def proc_scan_isolated : List Char → Bool
  | [] => true
  | c :: rest =>
    if c.isAlphanum || c == '_' || c == '.' then proc_scan_isolated rest
    else if c == ':' then true
    else false

/-- `validate` (source lines 147-181). -/
def validate (pkg proc : String) : Bool :=
  if pkg == ISOLATED_MAGIC then proc_scan_isolated proc.data
  else pkg_scan pkg.data false && proc_scan_normal proc.data

/-- The package grammar exactly as claim C6 words it: "pkg is made of
alphanumeric/underscore/dot characters with any other character
invalidating it" — i.e. with no requirement that a dot occurs. -/
def validate_claimed (pkg proc : String) : Bool :=
  if pkg == ISOLATED_MAGIC then
    (proc.data.takeWhile (fun c => !(c == ':'))).all pkgAllowedChar
  else
    pkg.data.all pkgAllowedChar && proc.data.all procAllowedChar

/-- The validator grammar with the correction forced by the code: a normal
package must, in addition, contain at least one dot (the `pkg_valid` flag
only ever becomes true at a dot). -/
def validate_amended (pkg proc : String) : Bool :=
  if pkg == ISOLATED_MAGIC then
    (proc.data.takeWhile (fun c => !(c == ':'))).all pkgAllowedChar
  else
    (pkg.data.all pkgAllowedChar && pkg.data.any (fun c => c == '.')) &&
      proc.data.all procAllowedChar

/-! ### The two data structures -/

/-- `pkg_to_procs`: package name to the set of hidden process names. -/
abbrev Store := List (String × List String)

/-- `app_id_to_pkgs`: app id to the set of package names. -/
abbrev UidIdx := List (Int × List String)

/-- Map lookup in `pkg_to_procs` (`pkg_to_procs.find(pkg)`). -/
def alFindStore (store : Store) (pkg : String) : Option (List String) :=
  (store.find? (fun e => e.1 == pkg)).map (fun e => e.2)

/-- Does the store hold the exact (pkg, proc) pair? -/
def storeHasPair (store : Store) (pkg proc : String) : Bool :=
  match alFindStore store pkg with
  | some ps => ps.contains proc
  | none => false

/-- `pkg_to_procs[pkg].emplace(proc)`: `operator[]` default-constructs an
empty set for a missing package, then set-emplace returns whether the
process name was actually inserted. -/
def storeEmplace : Store → String → String → Store × Bool
  | [], pkg, proc => ([(pkg, [proc])], true)
  | (k, ps) :: rest, pkg, proc =>
    if k == pkg then
      if ps.contains proc then ((k, ps) :: rest, false)
      else ((k, ps ++ [proc]) :: rest, true)
    else
      let r := storeEmplace rest pkg proc
      ((k, ps) :: r.1, r.2)

/-- `pkg_to_procs.erase(it)` for the entry of `pkg`. -/
def storeErase : Store → String → Store
  | [], _ => []
  | (k, ps) :: rest, pkg => if k == pkg then rest else (k, ps) :: storeErase rest pkg

/-- Replace the process set stored for `pkg` (the in-place set mutation of
`it->second`). -/
def storeSet : Store → String → List String → Store
  | [], _, _ => []
  | (k, ps) :: rest, pkg, ps' =>
    if k == pkg then (k, ps') :: rest else (k, ps) :: storeSet rest pkg ps'

/-- Map lookup in `app_id_to_pkgs`. -/
def idxFind (idx : UidIdx) (a : Int) : Option (List String) :=
  (idx.find? (fun e => e.1 == a)).map (fun e => e.2)

/-- `app_id_to_pkgs.contains(app_id)`. -/
def idxContains (idx : UidIdx) (a : Int) : Bool := (idxFind idx a).isSome

/-- `app_id_to_pkgs[app_id].insert(pkg)`. -/
def idxInsert : UidIdx → Int → String → UidIdx
  | [], a, pkg => [(a, [pkg])]
  | (k, ps) :: rest, a, pkg =>
    if k == a then
      if ps.contains pkg then (k, ps) :: rest else (k, ps ++ [pkg]) :: rest
    else (k, ps) :: idxInsert rest a pkg

/-- Lines 88-93 of `update_pkg_uid`: erase `pkg` from the bucket of `a` and
drop the bucket if it becomes empty. -/
def idxErasePkg : UidIdx → Int → String → UidIdx
  | [], _, _ => []
  | (k, ps) :: rest, a, pkg =>
    if k == a then
      let ps' := ps.filter (fun s => !(s == pkg))
      if ps'.isEmpty then rest else (k, ps') :: rest
    else (k, ps) :: idxErasePkg rest a pkg

/-! ### Filesystem and process-table oracles -/

/-- The filesystem state consumed by the engine: the inode of
`/data/system/packages.xml` (0 when `stat` fails, since `st` is
zero-initialized), whether `APP_DATA_DIR` opens, and the per-user app-data
tree: for each readable user directory, the package directories it contains
together with their owning uid (`st_uid`). -/
structure FS where
  regIno : Nat
  dataDirOk : Bool
  users : List (List (String × Nat))
deriving DecidableEq, Repr

/-- The live process table: (pid, command line) pairs in `/proc` iteration
order. -/
abbrev Live := List (Nat × String)

/-- `fstatat(user dir, pkg)`: the uid of the entry named `pkg` in one user
directory, if present. -/
def lookupUid (entries : List (String × Nat)) (pkg : String) : Option Nat :=
  (entries.find? (fun e => e.1 == pkg)).map (fun e => e.2)

/-- The user-directory scan of `update_pkg_uid` (lines 83-99): the uid of
the first user directory that contains an entry named `pkg` (the loop
breaks after the first hit). -/
def findPkgUid : List (List (String × Nat)) → String → Option Nat
  | [], _ => none
  | entries :: rest, pkg =>
    match lookupUid entries pkg with
    | some uid => some uid
    | none => findPkgUid rest pkg

/-! ### UidIndex maintenance (source lines 32-100) -/

/-- The inode / cached-manager-id / index triple that `update_uid_map`
reads and writes. -/
structure UidMapSt where
  ino : Nat
  mgr : Int
  idx : UidIdx
deriving DecidableEq, Repr

/-- The per-package loop of `update_uid_map` (lines 56-68) over one user
directory: derive the app id from the directory's owner, skip app ids that
already have an association, and associate the directory name when it is a
key of `pkg_to_procs`. -/
def build_entries (store : Store) : UidIdx → List (String × Nat) → UidIdx
  | idx, [] => idx
  | idx, (name, uid) :: rest =>
    if idxContains idx (toAppId uid) then build_entries store idx rest
    else if (alFindStore store name).isSome then
      build_entries store (idxInsert idx (toAppId uid) name) rest
    else build_entries store idx rest

/-- The per-user loop of `update_uid_map` (lines 52-72). -/
def build_users (store : Store) : UidIdx → List (List (String × Nat)) → UidIdx
  | idx, [] => idx
  | idx, u :: rest => build_users store (build_entries store idx u) rest

/-- The full rebuild scan of `update_uid_map`, starting from the cleared
index. -/
def build_uid_map (users : List (List (String × Nat))) (store : Store) : UidIdx :=
  build_users store [] users

/-- `update_uid_map` (lines 32-73): no-op when the registry inode equals
the cached one; otherwise store the new inode, reset the cached manager app
id, clear the index and rescan (the index stays cleared when `APP_DATA_DIR`
fails to open). -/
def update_uid_map (fs : FS) (store : Store) (s : UidMapSt) : UidMapSt :=
  if s.ino == fs.regIno then s
  else if fs.dataDirOk then ⟨fs.regIno, -1, build_uid_map fs.users store⟩
  else ⟨fs.regIno, -1, []⟩

/-- `update_pkg_uid` (lines 75-100): find the first user directory owning a
directory named `name`, then add or remove the (app id → name) association;
no directory found means no change. -/
def update_pkg_uid (fs : FS) (idx : UidIdx) (name : String) (remove : Bool) : UidIdx :=
  if fs.dataDirOk then
    match findPkgUid fs.users name with
    | some uid => if remove then idxErasePkg idx (toAppId uid) name
                  else idxInsert idx (toAppId uid) name
    | none => idx
  else idx

/-! ### ProcessReaper (source lines 102-145, 320-325) -/

/-- `kill_process` (lines 136-145): crawl the live process table in order,
kill every process whose command line satisfies the filter when `multi`,
otherwise stop after the first kill.  Returns the killed pids. -/
def kill_process : Live → String → Bool → (String → String → Bool) → List Nat
  | [], _, _, _ => []
  | (pid, cmd) :: rest, name, multi, filter =>
    if filter cmd name then
      if multi then pid :: kill_process rest name multi filter else [pid]
    else kill_process rest name multi filter

/-- Drop killed pids from the live table (a killed process no longer shows
up in later crawls). -/
def removeKilled (live : Live) (killed : List Nat) : Live :=
  live.filter (fun p => !(killed.contains p.1))

/-- `str_ends_safe` (lines 320-325): never match the process named exactly
`webview_zygote`; otherwise suffix match. -/
def str_ends_safe (s ss : String) : Bool :=
  if s == "webview_zygote" then false else str_ends s ss

/-! ### Engine state and lazy initialization -/

/-- Status codes (the shared enumeration of the daemon headers, which are
not under `src/`; the spec names them SUCCESS, GENERIC_ERROR,
INVALID_PACKAGE_OR_PROCESS_NAME, ITEM_ALREADY_EXISTS, ITEM_NOT_FOUND,
NAMESPACE_UNSUPPORTED). -/
inductive Status where
  | DAEMON_SUCCESS
  | DAEMON_ERROR
  | HIDE_INVALID_PKG
  | HIDE_ITEM_EXIST
  | HIDE_ITEM_NOT_EXIST
  | HIDE_NO_NS
deriving DecidableEq, Repr

/-- The module-level mutable state of the source file: the two lazily
allocated structures (`none` = null `unique_ptr`), the atomic enabled flag,
the cached registry inode, the cached manager app id, and whether the
`/proc` handle is open. -/
structure HideState where
  pkgToProcs : Option Store
  appIdToPkgs : Option UidIdx
  hideEnabled : Bool
  pkgXmlIno : Nat
  cachedManagerAppId : Int
  procfpOpen : Bool
deriving DecidableEq, Repr

/-- The external world an operation runs against. `dbRows` are the persisted
hide entries; when `dbLoadOk` is false the bulk `SELECT` fails after
delivering the first `dbFailAt` rows (the row callback has already inserted
those). -/
structure Env where
  fs : FS
  live : Live
  dbRows : List (String × String)
  dbLoadOk : Bool
  dbFailAt : Nat
  nsSupported : Bool
  procDirOk : Bool
  threadOk : Bool
  sdkInt : Nat
deriving DecidableEq, Repr

/-- `add_hide_set` (lines 183-195): set-emplace the pair; on a fresh insert
reap already-running instances — all prefix matches for the isolated
package, the first exact match otherwise.  Returns (new store, inserted?,
killed pids). -/
def add_hide_set (live : Live) (store : Store) (pkg proc : String) :
    Store × Bool × List Nat :=
  match storeEmplace store pkg proc with
  | (store', false) => (store', false, [])
  | (store', true) =>
    if pkg == ISOLATED_MAGIC then
      (store', true, kill_process live proc true (fun cmd n => str_starts cmd n))
    else
      (store', true, kill_process live proc false (fun cmd n => str_eql cmd n))

/-- The row-replay loop of `init_list` (lines 204-207): each persisted row
goes through `add_hide_set`, whose kills update the live table. -/
def load_rows : Live → Store → List (String × String) → Store × Live × List Nat
  | live, store, [] => (store, live, [])
  | live, store, (pkg, proc) :: rest =>
    match add_hide_set live store pkg proc with
    | (store', _, killed) =>
      match load_rows (removeKilled live killed) store' rest with
      | (store'', live'', ks) => (store'', live'', killed ++ ks)

/-- `init_list` (lines 197-217): no-op when `pkg_to_procs_` is already
allocated.  Otherwise allocate it, replay the persisted rows, and on
success allocate the (empty) uid index and run `update_uid_map`.  On a bulk
load failure the partially filled `pkg_to_procs_` is NOT freed (the `goto
error` path only returns false), and the uid index stays unallocated. -/
def init_list (env : Env) (st : HideState) : HideState × Bool × List Nat :=
  match st.pkgToProcs with
  | some _ => (st, true, [])
  | none =>
    let rows := if env.dbLoadOk then env.dbRows else env.dbRows.take env.dbFailAt
    match load_rows env.live [] rows with
    | (store, _, kills) =>
      if env.dbLoadOk then
        let s := update_uid_map env.fs store ⟨st.pkgXmlIno, st.cachedManagerAppId, []⟩
        ({ st with pkgToProcs := some store, appIdToPkgs := some s.idx,
                   pkgXmlIno := s.ino, cachedManagerAppId := s.mgr }, true, kills)
      else
        ({ st with pkgToProcs := some store }, false, kills)

/-! ### List mutation (source lines 219-295) -/

/-- Line 220-221: an empty process name defaults to the package name. -/
def procOrPkg (pkg proc0 : String) : String := if proc0 == "" then pkg else proc0

/-- The locked part of `add_hide_list` (lines 219-234), up to but excluding
the database write.  A `some status` second component is an early return;
`none` means the in-memory change succeeded and control reaches the
`INSERT`.  Note line 233 passes `*p.first` — the process name, not the
package name — to `update_pkg_uid`. -/
def add_hide_pre (env : Env) (st : HideState) (pkg proc0 : String) :
    HideState × Option Status × List Nat :=
  let proc := procOrPkg pkg proc0
  if validate pkg proc = false then (st, some Status.HIDE_INVALID_PKG, [])
  else
    match init_list env st with
    | (st1, false, k0) => (st1, some Status.DAEMON_ERROR, k0)
    | (st1, true, k0) =>
      match add_hide_set (removeKilled env.live k0) (st1.pkgToProcs.getD []) pkg proc with
      | (_, false, _) => (st1, some Status.HIDE_ITEM_EXIST, k0)
      | (store2, true, ks) =>
        ({ st1 with pkgToProcs := some store2,
                    appIdToPkgs :=
                      some (update_pkg_uid env.fs (st1.appIdToPkgs.getD []) proc false) },
         none, k0 ++ ks)

/-- `add_hide_list` (lines 219-243): the locked mutation followed by the
`INSERT INTO hidelist` write, whose success is the oracle `dbOk`.  Returns
(state, status, killed pids, whether the database write was attempted). -/
def add_hide_list (env : Env) (dbOk : Bool) (st : HideState) (pkg proc0 : String) :
    HideState × Status × List Nat × Bool :=
  match add_hide_pre env st pkg proc0 with
  | (st', some status, ks) => (st', status, ks, false)
  | (st', none, ks) =>
    (st', if dbOk then Status.DAEMON_SUCCESS else Status.DAEMON_ERROR, ks, true)

/-- The locked part of `rm_hide_list` (lines 251-278), up to but excluding
the `DELETE` write; `none` status means a structural removal happened. -/
def rm_hide_pre (env : Env) (st : HideState) (pkg proc : String) :
    HideState × Option Status × List Nat :=
  match init_list env st with
  | (st1, false, k0) => (st1, some Status.DAEMON_ERROR, k0)
  | (st1, true, k0) =>
    let store := st1.pkgToProcs.getD []
    let idx := st1.appIdToPkgs.getD []
    match alFindStore store pkg with
    | none => (st1, some Status.HIDE_ITEM_NOT_EXIST, k0)
    | some procs =>
      if proc == "" then
        ({ st1 with pkgToProcs := some (storeErase store pkg),
                    appIdToPkgs := some (update_pkg_uid env.fs idx pkg true) },
         none, k0)
      else if procs.contains proc then
        let procs' := procs.filter (fun s => !(s == proc))
        if procs'.isEmpty then
          ({ st1 with pkgToProcs := some (storeErase store pkg),
                      appIdToPkgs := some (update_pkg_uid env.fs idx pkg true) },
           none, k0)
        else
          ({ st1 with pkgToProcs := some (storeSet store pkg procs') }, none, k0)
      else (st1, some Status.HIDE_ITEM_NOT_EXIST, k0)

/-- `rm_hide_list` (lines 251-289): the locked removal followed by the
`DELETE FROM hidelist` write, whose success is the oracle `dbOk`. -/
def rm_hide_list (env : Env) (dbOk : Bool) (st : HideState) (pkg proc : String) :
    HideState × Status × List Nat × Bool :=
  match rm_hide_pre env st pkg proc with
  | (st', some status, ks) => (st', status, ks, false)
  | (st', none, ks) =>
    (st', if dbOk then Status.DAEMON_SUCCESS else Status.DAEMON_ERROR, ks, true)

/-! ### MatchEngine (source lines 420-462) -/

/-- One pattern test of the isolated regime (lines 431-434 and 439-442):
either both strings exceed `max_len` and the live name is a prefix of the
stored pattern (truncated read), or the stored pattern is a prefix of the
live name. -/
def iso_rule (s process : String) (maxLen : Nat) : Bool :=
  (decide (maxLen < s.length) && decide (maxLen < process.length) &&
     str_starts s process) ||
  str_starts process s

/-- One package-name test of the normal regime's second loop (lines
455-458): the truncation clause as above, otherwise exact equality. -/
def pkg_rule (s process : String) (maxLen : Nat) : Bool :=
  (decide (maxLen < s.length) && decide (maxLen < process.length) &&
     str_starts s process) ||
  s == process

/-- The pattern test claim C1 states: clause (ii) has the live name as a
prefix of the stored pattern "regardless of length". -/
def claim_iso_rule (s process : String) (maxLen : Nat) : Bool :=
  (decide (maxLen < s.length) && decide (maxLen < process.length) &&
     str_starts s process) ||
  str_starts s process

/-- The first loop of the normal regime (lines 450-453):
`pkg_to_procs.find(pkg)->second.count(process)` for each owned package.
The iterator returned by `find` is dereferenced without a check; a missing
key is undefined behavior in the source, modelled as `none`. -/
def normal_loop1 (store : Store) : List String → String → Option Bool
  | [], _ => some false
  | pkg :: rest, process =>
    match alFindStore store pkg with
    | none => none
    | some procs =>
      if procs.contains process then some true else normal_loop1 store rest process

/-- The matching core of `is_hide_target` (lines 427-461), after the lock,
lazy init and `update_uid_map`. -/
def hide_core (store : Store) (idx : UidIdx) (appId : Int) (process : String)
    (maxLen : Nat) : Option Bool :=
  if 90000 ≤ appId then
    some (((alFindStore store ISOLATED_MAGIC).getD []).any
            (fun s => iso_rule s process maxLen) ||
          ((idxFind idx (-1)).getD []).any (fun s => iso_rule s process maxLen))
  else
    match idxFind idx appId with
    | none => some false
    | some pkgs =>
      match normal_loop1 store pkgs process with
      | none => none
      | some true => some true
      | some false => some (pkgs.any (fun s => pkg_rule s process maxLen))

/-- `is_hide_target` (lines 420-462): lazy init (false on failure), then
`update_uid_map`, then the matching core.  Returns (state, pids killed by a
first-time lazy load, result); `none` is the undefined-behavior marker of
`normal_loop1`. -/
def is_hide_target (env : Env) (st : HideState) (uid : Nat) (process : String)
    (maxLen : Nat) : HideState × List Nat × Option Bool :=
  match init_list env st with
  | (st1, false, k0) => (st1, k0, some false)
  | (st1, true, k0) =>
    let store := st1.pkgToProcs.getD []
    let s := update_uid_map env.fs store
               ⟨st1.pkgXmlIno, st1.cachedManagerAppId, st1.appIdToPkgs.getD []⟩
    ({ st1 with pkgXmlIno := s.ino, cachedManagerAppId := s.mgr,
                appIdToPkgs := some s.idx },
     k0, hide_core store s.idx (toAppId uid) process maxLen)

/-- `check_uid_map` (lines 470-477): return 0 without touching the engine
when the enabled flag is off; otherwise delegate to `is_hide_target` with
the default `max_len`. -/
def check_uid_map (env : Env) (st : HideState) (uid : Nat) (process : String) :
    HideState × List Nat × Option Nat :=
  if st.hideEnabled = false then (st, [], some 0)
  else
    let r := is_hide_target env st uid process default_max_len
    (r.1, r.2.1, r.2.2.map (fun b => if b then 1 else 0))

/-! ### LifecycleController (source lines 343-418) -/

/-- The Android-Q-or-later safety sweep of `launch_magiskhide` (lines
366-371): kill every `usap32` and `usap64` exact match and every process
whose command line ends in `_zygote` — except `webview_zygote`, which
`str_ends_safe` always rejects. -/
def launch_sweep (live : Live) (sdkInt : Nat) : List Nat :=
  if 29 ≤ sdkInt then
    let k1 := kill_process live "usap32" true (fun cmd n => str_eql cmd n)
    let live1 := removeKilled live k1
    let k2 := kill_process live1 "usap64" true (fun cmd n => str_eql cmd n)
    let live2 := removeKilled live1 k2
    let k3 := kill_process live2 "_zygote" true (fun cmd n => str_ends_safe cmd n)
    k1 ++ k2 ++ k3
  else []

/-- `launch_magiskhide` (lines 343-389): no-op success when already
enabled; `HIDE_NO_NS` when the kernel lacks mount namespaces; open the
`/proc` handle; set the enabled flag; lazily initialize, rolling the flag
back on failure; run the safety sweep; start the monitor thread (error kept
the flag set); rebuild the uid map after unlocking; persist the flag.  When
the final `update_uid_map()` runs with `app_id_to_pkgs_` still null (only
reachable after a failed earlier initialization), the C++ dereferences a
null pointer; the model proceeds from an empty index. -/
def launch_magiskhide (env : Env) (st : HideState) : HideState × Status × List Nat :=
  if st.hideEnabled then (st, Status.DAEMON_SUCCESS, [])
  else if env.nsSupported = false then (st, Status.HIDE_NO_NS, [])
  else if !st.procfpOpen && !env.procDirOk then (st, Status.DAEMON_ERROR, [])
  else
    match init_list env { st with procfpOpen := true, hideEnabled := true } with
    | (st1, false, k0) => ({ st1 with hideEnabled := false }, Status.DAEMON_ERROR, k0)
    | (st1, true, k0) =>
      let ks := launch_sweep (removeKilled env.live k0) env.sdkInt
      if env.threadOk = false then (st1, Status.DAEMON_ERROR, k0 ++ ks)
      else
        let s := update_uid_map env.fs (st1.pkgToProcs.getD [])
                   ⟨st1.pkgXmlIno, st1.cachedManagerAppId, st1.appIdToPkgs.getD []⟩
        ({ st1 with pkgXmlIno := s.ino, cachedManagerAppId := s.mgr,
                    appIdToPkgs := some s.idx },
         Status.DAEMON_SUCCESS, k0 ++ ks)

/-! ### Derived predicates used by the claims -/

/-- The invariant of claim C9: every package name stored in any uid-index
bucket is a key of `pkg_to_procs`. -/
def idx_pkgs_sub (store : Store) (idx : UidIdx) : Bool :=
  idx.all (fun b => b.2.all (fun p => (alFindStore store p).isSome))

/-- Key lists are duplicate-free — the `std::map` well-formedness carried
by the association-list model. -/
def storeKeysNodup (store : Store) : Prop := (store.map Prod.fst).Nodup

/-- Key lists are duplicate-free for the uid index. -/
def idxKeysNodup (idx : UidIdx) : Prop := (idx.map Prod.fst).Nodup

/-! ### Concrete scenario inputs used to exercise the theorems -/

/-- A filesystem whose registry file has inode 7 and an empty app-data
tree. -/
def exFS : FS := ⟨7, true, []⟩

/-- A quiet environment: no live processes, empty persisted list. -/
def exEnvIdle : Env := ⟨exFS, [], [], true, 0, true, true, true, 28⟩

/-- A quiet environment on a kernel without mount-namespace support. -/
def exEnvNoNs : Env := ⟨exFS, [], [], true, 0, false, true, true, 28⟩

/-- Environment whose bulk `SELECT` fails after delivering one of its two
persisted rows. -/
def exEnvFailLoad : Env :=
  ⟨exFS, [], [("com.a", "com.a"), ("com.b", "com.b")], false, 1, true, true, true, 28⟩

/-- The same environment after the store recovered. -/
def exEnvOkLoad : Env :=
  ⟨exFS, [], [("com.a", "com.a"), ("com.b", "com.b")], true, 0, true, true, true, 28⟩

/-- The daemon's state before the feature was ever engaged. -/
def exStFresh : HideState := ⟨none, none, false, 0, -1, false⟩

/-- An initialized, enabled state with an empty hide list, whose cached
inode matches `exFS`. -/
def exStEmpty : HideState := ⟨some [], some [], true, 7, -1, true⟩

/-- An initialized state holding one isolated prefix pattern. -/
def exStIso : HideState :=
  ⟨some [(ISOLATED_MAGIC, ["com.a:svc"])], some [], true, 7, -1, true⟩

/-- An initialized state holding the short isolated pattern `"ab"`. -/
def exStIso2 : HideState :=
  ⟨some [(ISOLATED_MAGIC, ["ab"])], some [], true, 7, -1, true⟩

/-- An initialized state hiding package `com.a`, whose uid index associates
app id 5 with it. -/
def exStA : HideState :=
  ⟨some [("com.a", ["com.a"])], some [(5, ["com.a"])], true, 7, -1, true⟩

/-- An environment whose app-data tree owns `com.a` under uid 5. -/
def exEnvA : Env := ⟨⟨7, true, [[("com.a", 5)]]⟩, [], [], true, 0, true, true, true, 28⟩

/-- An environment with a single live process named `com.evil`. -/
def exEnvEvil : Env := ⟨exFS, [(42, "com.evil")], [], true, 0, true, true, true, 28⟩

/-- An environment whose app-data tree owns a directory named `com.b`
(an installed package that is not hidden) under uid 10123. -/
def exEnvB : Env := ⟨⟨7, true, [[("com.b", 10123)]]⟩, [], [], true, 0, true, true, true, 28⟩

/-- The state `add("com.a", "com.b")` produces from `exStEmpty` under
`exEnvB`: the store hides `(com.a, com.b)` but the uid index now maps app
id 10123 to the non-key `com.b`. -/
def exStBroken : HideState :=
  ⟨some [("com.a", ["com.b"])], some [(10123, ["com.b"])], true, 7, -1, true⟩

/-! ### Helper lemmas -/

theorem removeKilled_nil (live : Live) : removeKilled live [] = live := by
  simp [removeKilled]

theorem init_list_inited (env : Env) (st : HideState) (store : Store)
    (h : st.pkgToProcs = some store) : init_list env st = (st, true, []) := by
  simp only [init_list, h]

theorem storeEmplace_of_hasPair (store : Store) (pkg proc : String)
    (h : storeHasPair store pkg proc = true) :
    storeEmplace store pkg proc = (store, false) := by
  induction store with
  | nil => simp [storeHasPair, alFindStore] at h
  | cons e rest ih =>
    obtain ⟨k, ps⟩ := e
    by_cases hk : (k == pkg) = true
    · simp [storeHasPair, alFindStore, List.find?, hk] at h
      simp [storeEmplace, hk, h]
    · simp only [Bool.not_eq_true] at hk
      simp only [storeHasPair, alFindStore, List.find?, hk, cond_false] at h
      have := ih (by simpa [storeHasPair, alFindStore] using h)
      simp [storeEmplace, hk, this]

theorem storeEmplace_snd_of_not_hasPair (store : Store) (pkg proc : String)
    (h : storeHasPair store pkg proc = false) :
    (storeEmplace store pkg proc).2 = true := by
  induction store with
  | nil => simp [storeEmplace]
  | cons e rest ih =>
    obtain ⟨k, ps⟩ := e
    by_cases hk : (k == pkg) = true
    · simp [storeHasPair, alFindStore, List.find?, hk] at h
      simp [storeEmplace, hk, h]
    · simp only [Bool.not_eq_true] at hk
      simp only [storeHasPair, alFindStore, List.find?, hk, cond_false] at h
      have := ih (by simpa [storeHasPair, alFindStore] using h)
      simp [storeEmplace, hk, this]

theorem kill_process_multi (live : Live) (name : String) (f : String → String → Bool) :
    kill_process live name true f = (live.filter (fun p => f p.2 name)).map Prod.fst := by
  induction live with
  | nil => rfl
  | cons e rest ih =>
    obtain ⟨pid, cmd⟩ := e
    by_cases hf : f cmd name = true
    · simp [kill_process, hf, ih, List.filter]
    · simp only [Bool.not_eq_true] at hf
      simp [kill_process, hf, ih, List.filter]

theorem kill_process_single (live : Live) (name : String) (f : String → String → Bool) :
    kill_process live name false f =
      ((live.find? (fun p => f p.2 name)).map Prod.fst).toList := by
  induction live with
  | nil => rfl
  | cons e rest ih =>
    obtain ⟨pid, cmd⟩ := e
    by_cases hf : f cmd name = true
    · simp [kill_process, hf, List.find?]
    · simp only [Bool.not_eq_true] at hf
      simp [kill_process, hf, ih, List.find?]

theorem alFindStore_eq_none_of_not_mem (store : Store) (pkg : String)
    (h : pkg ∉ store.map Prod.fst) : alFindStore store pkg = none := by
  induction store with
  | nil => rfl
  | cons e rest ih =>
    obtain ⟨k, ps⟩ := e
    simp only [List.map, List.mem_cons, not_or] at h
    have hk : (k == pkg) = false := by
      simp only [beq_eq_false_iff_ne, ne_eq]
      exact fun hkk => h.1 hkk.symm
    simp only [alFindStore, List.find?, hk, cond_false]
    exact ih h.2

theorem alFindStore_erase_self (store : Store) (pkg : String)
    (h : storeKeysNodup store) : alFindStore (storeErase store pkg) pkg = none := by
  induction store with
  | nil => rfl
  | cons e rest ih =>
    obtain ⟨k, ps⟩ := e
    simp only [storeKeysNodup, List.map, List.nodup_cons] at h
    by_cases hk : (k == pkg) = true
    · have hkp : k = pkg := by simpa using hk
      simp only [storeErase, hk, if_true]
      exact alFindStore_eq_none_of_not_mem rest pkg (hkp ▸ h.1)
    · simp only [Bool.not_eq_true] at hk
      simp only [storeErase, hk, Bool.false_eq_true, if_false, alFindStore,
        List.find?, hk, cond_false]
      exact ih h.2

theorem find?_append_split {α : Type} (l1 l2 : List α) (p : α → Bool) :
    (l1 ++ l2).find? p =
      match l1.find? p with
      | some x => some x
      | none => l2.find? p := by
  induction l1 with
  | nil => simp
  | cons a rest ih =>
    by_cases hp : p a = true
    · simp [List.find?, hp]
    · simp only [Bool.not_eq_true] at hp
      simp [List.find?, hp, ih]

theorem idxFind_insert_self (idx : UidIdx) (a : Int) (name : String)
    (h : idxFind idx a = none) : idxFind (idxInsert idx a name) a = some [name] := by
  induction idx with
  | nil => simp [idxInsert, idxFind, List.find?]
  | cons e rest ih =>
    obtain ⟨k, ps⟩ := e
    by_cases hk : (k == a) = true
    · simp [idxFind, List.find?, hk] at h
    · simp only [Bool.not_eq_true] at hk
      simp only [idxFind, List.find?, hk, cond_false] at h
      simp only [idxInsert, hk, Bool.false_eq_true, if_false, idxFind,
        List.find?, hk, cond_false]
      exact ih h

theorem idxFind_insert_other (idx : UidIdx) (a b : Int) (name : String)
    (h : (a == b) = false) : idxFind (idxInsert idx b name) a = idxFind idx a := by
  induction idx with
  | nil =>
    have hba : (b == a) = false := by
      simp only [beq_eq_false_iff_ne, ne_eq] at h ⊢
      exact fun hba => h hba.symm
    simp [idxInsert, idxFind, List.find?, hba]
  | cons e rest ih =>
    obtain ⟨k, ps⟩ := e
    by_cases hk : (k == b) = true
    · have hka : (k == a) = false := by
        have hkb : k = b := by simpa using hk
        simp only [beq_eq_false_iff_ne, ne_eq] at h ⊢
        subst hkb
        exact fun hka => h (hka.symm)
      by_cases hps : name ∈ ps
      · simp [idxInsert, hk, hps, idxFind, List.find?, hka]
      · simp [idxInsert, hk, hps, idxFind, List.find?, hka]
    · simp only [Bool.not_eq_true] at hk
      by_cases hka : (k == a) = true
      · simp [idxInsert, hk, idxFind, List.find?, hka]
      · simp only [Bool.not_eq_true] at hka
        simp only [idxInsert, hk, Bool.false_eq_true, if_false, idxFind,
          List.find?, hka, cond_false]
        exact ih

theorem build_entries_find (store : Store) (entries : List (String × Nat))
    (idx : UidIdx) (a : Int) :
    idxFind (build_entries store idx entries) a =
      match idxFind idx a with
      | some l => some l
      | none =>
        (entries.find? (fun e => toAppId e.2 == a && (alFindStore store e.1).isSome)).map
          (fun e => [e.1]) := by
  induction entries generalizing idx with
  | nil =>
    cases hi : idxFind idx a with
    | none => simp [build_entries, hi]
    | some l => simp [build_entries, hi]
  | cons e rest ih =>
    obtain ⟨name, uid⟩ := e
    by_cases hc : idxContains idx (toAppId uid) = true
    · simp only [build_entries, hc, if_true]
      rw [ih idx]
      cases hi : idxFind idx a with
      | some l => rfl
      | none =>
        have hne : (toAppId uid == a) = false := by
          rcases hb : (toAppId uid == a) with _ | _
          · rfl
          · have : toAppId uid = a := by simpa using hb
            rw [this] at hc
            simp [idxContains, hi] at hc
        simp [List.find?, hne]
    · simp only [Bool.not_eq_true] at hc
      by_cases hh : (alFindStore store name).isSome = true
      · simp only [build_entries, hc, Bool.false_eq_true, if_false, hh, if_true]
        rw [ih]
        by_cases hba : (toAppId uid == a) = true
        · have hba' : toAppId uid = a := by simpa using hba
          have hia : idxFind idx a = none := by
            rw [← hba']
            cases hx : idxFind idx (toAppId uid) with
            | none => rfl
            | some l => simp [idxContains, hx] at hc
          rw [hba', idxFind_insert_self idx a name hia, hia]
          simp [List.find?, hba, hh]
        · simp only [Bool.not_eq_true] at hba
          have hab : (a == toAppId uid) = false := by
            simp only [beq_eq_false_iff_ne, ne_eq] at hba ⊢
            exact fun hq => hba (by rw [hq])
          rw [idxFind_insert_other idx a (toAppId uid) name hab]
          cases hi : idxFind idx a with
          | some l => rfl
          | none => simp [List.find?, hba]
      · simp only [Bool.not_eq_true] at hh
        simp only [build_entries, hc, Bool.false_eq_true, if_false, hh, if_false]
        rw [ih]
        cases hi : idxFind idx a with
        | some l => rfl
        | none => simp [List.find?, hh]

theorem build_users_find (store : Store) (users : List (List (String × Nat)))
    (idx : UidIdx) (a : Int) :
    idxFind (build_users store idx users) a =
      match idxFind idx a with
      | some l => some l
      | none =>
        (users.flatten.find? (fun e => toAppId e.2 == a && (alFindStore store e.1).isSome)).map
          (fun e => [e.1]) := by
  induction users generalizing idx with
  | nil =>
    cases hi : idxFind idx a with
    | none => simp [build_users, hi]
    | some l => simp [build_users, hi]
  | cons u rest ih =>
    simp only [build_users]
    rw [ih, build_entries_find]
    cases hi : idxFind idx a with
    | some l => rfl
    | none =>
      rw [List.flatten_cons, find?_append_split]
      cases hu : List.find? (fun e => toAppId e.2 == a && (alFindStore store e.1).isSome) u with
      | some x => simp [hu]
      | none => simp [hu]

theorem build_uid_map_find (store : Store) (users : List (List (String × Nat))) (a : Int) :
    idxFind (build_uid_map users store) a =
      (users.flatten.find? (fun e => toAppId e.2 == a && (alFindStore store e.1).isSome)).map
        (fun e => [e.1]) := by
  rw [build_uid_map, build_users_find]
  rfl

theorem idxErasePkg_no_assoc (idx : UidIdx) (a : Int) (pkg : String)
    (hnodup : idxKeysNodup idx) (honly : ∀ b ∈ idx, pkg ∈ b.2 → b.1 = a) :
    ∀ b ∈ idxErasePkg idx a pkg, pkg ∉ b.2 := by
  induction idx with
  | nil => intro b hb; simp [idxErasePkg] at hb
  | cons e rest ih =>
    obtain ⟨k, ps⟩ := e
    simp only [idxKeysNodup, List.map, List.nodup_cons] at hnodup
    intro b hb
    by_cases hk : (k == a) = true
    · have hka : k = a := by simpa using hk
      simp only [idxErasePkg, hk, if_true] at hb
      by_cases hemp : (ps.filter (fun s => !(s == pkg))).isEmpty = true
      · simp only [hemp, if_true] at hb
        intro hmem
        have := honly b (List.mem_cons_of_mem _ hb) hmem
        exact hnodup.1 (by rw [← hka] at this; exact this ▸ (List.mem_map_of_mem Prod.fst hb))
      · simp only [hemp, Bool.false_eq_true, if_false, List.mem_cons] at hb
        rcases hb with hb | hb
        · subst hb
          intro hmem
          simp only [List.mem_filter] at hmem
          simp at hmem
        · intro hmem
          have := honly b (List.mem_cons_of_mem _ hb) hmem
          exact hnodup.1 (by rw [← hka] at this; exact this ▸ (List.mem_map_of_mem Prod.fst hb))
    · simp only [Bool.not_eq_true] at hk
      simp only [idxErasePkg, hk, Bool.false_eq_true, if_false, List.mem_cons] at hb
      rcases hb with hb | hb
      · intro hmem
        have hbmem : b ∈ (k, ps) :: rest := by rw [hb]; exact List.mem_cons_self _ _
        have h3 := honly b hbmem hmem
        simp only [beq_eq_false_iff_ne, ne_eq] at hk
        rw [hb] at h3
        exact hk h3
      · exact ih hnodup.2 (fun b' hb' hm => honly b' (List.mem_cons_of_mem _ hb') hm) b hb

theorem pkg_scan_eq (l : List Char) (acc : Bool) :
    pkg_scan l acc = (l.all pkgAllowedChar && (acc || l.any (fun c => c == '.'))) := by
  induction l generalizing acc with
  | nil => simp [pkg_scan]
  | cons c rest ih =>
    by_cases h1 : (c.isAlphanum || c == '_') = true
    · have hdot : (c == '.') = false := by
        rcases hd : (c == '.') with _ | _
        · rfl
        · have hcd : c = '.' := by simpa using hd
          subst hcd
          simp at h1
      have hpc : pkgAllowedChar c = true := by simp [pkgAllowedChar, h1]
      simp [pkg_scan, h1, ih, hdot, hpc]
    · simp only [Bool.not_eq_true] at h1
      by_cases h2 : (c == '.') = true
      · have hpc : pkgAllowedChar c = true := by simp [pkgAllowedChar, h2]
        simp [pkg_scan, h1, h2, ih, hpc]
      · simp only [Bool.not_eq_true] at h2
        have hpc : pkgAllowedChar c = false := by simp [pkgAllowedChar, h1, h2]
        simp [pkg_scan, h1, h2, hpc]

theorem proc_scan_normal_eq (l : List Char) :
    proc_scan_normal l = l.all procAllowedChar := by
  induction l with
  | nil => rfl
  | cons c rest ih =>
    by_cases h : (c.isAlphanum || c == '_' || c == ':' || c == '.') = true
    · have hpc : procAllowedChar c = true := by simpa [procAllowedChar] using h
      simp [proc_scan_normal, h, ih, hpc]
    · simp only [Bool.not_eq_true] at h
      have hpc : procAllowedChar c = false := by simpa [procAllowedChar] using h
      simp [proc_scan_normal, h, hpc]

theorem proc_scan_isolated_eq (l : List Char) :
    proc_scan_isolated l = (l.takeWhile (fun c => !(c == ':'))).all pkgAllowedChar := by
  induction l with
  | nil => rfl
  | cons c rest ih =>
    by_cases h1 : (c.isAlphanum || c == '_' || c == '.') = true
    · have hcol : (c == ':') = false := by
        rcases hd : (c == ':') with _ | _
        · rfl
        · have : c = ':' := by simpa using hd
          subst this
          simp at h1
      have hpc : pkgAllowedChar c = true := by simpa [pkgAllowedChar] using h1
      simp [proc_scan_isolated, h1, ih, List.takeWhile, hcol, hpc]
    · simp only [Bool.not_eq_true] at h1
      by_cases h2 : (c == ':') = true
      · simp [proc_scan_isolated, h1, h2, List.takeWhile]
      · simp only [Bool.not_eq_true] at h2
        have hpc : pkgAllowedChar c = false := by simpa [pkgAllowedChar] using h1
        simp [proc_scan_isolated, h1, h2, List.takeWhile, hpc]

/-! ### Claim C1 -/

/-- Claim C1, as stated, is false: its clause (ii) says "process_name is a
prefix of p regardless of length", but line 433 of the source tests
`str_starts(process, s)` — the STORED pattern is the prefix of the live
name, not the other way round.  At the stored isolated pattern `"ab"`, live
name `"abc"` and `max_prefix_len = 5`, the engine answers true while no
stored pattern satisfies the claim's rule. -/
theorem claim_C1_counterexample :
    (is_hide_target exEnvIdle exStIso2 90000 "abc" 5).2.2 = some true ∧
    (["ab"] : List String).any (fun p => claim_iso_rule p "abc" 5) = false := by
  refine ⟨by decide, by decide⟩

/-- Claim C1 (amended): in the sandboxed-worker regime the result is true
iff some stored pattern `p` — from the isolated package's process set or
the reserved uid-index bucket — satisfies: (i) both `p` and `process_name`
exceed `max_prefix_len` and `process_name` is a prefix of `p`, or (ii) `p`
is a prefix of `process_name` regardless of length.  Truncated live names
(clause (i)) are only accepted above the threshold; below it the stored
pattern must itself be a prefix of the live name, with equality as the
degenerate case. -/
theorem claim_C1_thm (env : Env) (st : HideState) (store : Store) (idx : UidIdx)
    (uid : Nat) (process : String) (maxLen : Nat)
    (hs : st.pkgToProcs = some store) (hi : st.appIdToPkgs = some idx)
    (hino : st.pkgXmlIno = env.fs.regIno) (happ : 90000 ≤ toAppId uid) :
    (is_hide_target env st uid process maxLen).2.2 =
      some ((((alFindStore store ISOLATED_MAGIC).getD []) ++
              ((idxFind idx (-1)).getD [])).any
        (fun p => iso_rule p process maxLen)) ∧
    ∀ p : String, iso_rule p process maxLen = true ↔
      ((maxLen < p.length ∧ maxLen < process.length ∧
          process.data.isPrefixOf p.data) ∨
        p.data.isPrefixOf process.data) := by
  constructor
  · have hinit := init_list_inited env st store hs
    have hcond : (st.pkgXmlIno == env.fs.regIno) = true := by
      rw [hino]
      simp
    simp only [is_hide_target, hinit, hs, Option.getD_some, update_uid_map, hcond,
      if_true, hi, hide_core, happ, List.any_append]
  · intro p
    simp [iso_rule, str_starts, Bool.and_eq_true, Bool.or_eq_true, decide_eq_true_iff,
      and_assoc]

/-- Witness for claim C1's theorem: the stored isolated pattern
`com.a:svc` matches the live suffixed instance `com.a:svc_0`. -/
theorem claim_C1_witness :
    (is_hide_target exEnvIdle exStIso 90000 "com.a:svc_0" 1024).2.2 = some true := by
  rw [(claim_C1_thm exEnvIdle exStIso [(ISOLATED_MAGIC, ["com.a:svc"])] []
        90000 "com.a:svc_0" 1024 rfl rfl rfl (by decide)).1]
  decide

/-! ### Claim C5 -/

/-- Claim C5, as stated, is false in its description of the rebuild:
"associating each hidden package's directory with the app identity derived
from its ownership, first user wins per app identity".  The skip in the
source (line 61) is per app id over the whole walk, not per user: with a
single user holding two hidden packages `a` and `b` that share app id 1,
only `a` — the first directory entry — is associated, although no second
user exists to lose to. -/
theorem claim_C5_counterexample :
    update_uid_map ⟨7, true, [[("a", 1), ("b", 1)]]⟩ [("a", ["a"]), ("b", ["b"])]
        ⟨0, 5, []⟩ = ⟨7, -1, [(1, ["a"])]⟩ ∧
    (alFindStore [("a", ["a"]), ("b", ["b"])] "b").isSome = true ∧
    ∀ bu ∈ ([(1, ["a"])] : UidIdx), "b" ∉ bu.2 := by
  refine ⟨by decide, by decide, by decide⟩

/-- Claim C5 (amended): refresh is gated by the registry fingerprint — when
the inode equals the cached one it is a no-op, and a second consecutive
refresh against the same filesystem changes nothing; when the inode
differs, the cached manager identity is reset and the index is rebuilt by
the two-level walk, where, per app identity, the FIRST directory entry in
user-major scan order whose name is a hidden package wins (a later hidden
package sharing the app identity is skipped even within the same user). -/
theorem claim_C5_thm (fs : FS) (store : Store) (s : UidMapSt) :
    (s.ino = fs.regIno → update_uid_map fs store s = s) ∧
    (update_uid_map fs store (update_uid_map fs store s) = update_uid_map fs store s) ∧
    (s.ino ≠ fs.regIno → fs.dataDirOk = true →
      update_uid_map fs store s = ⟨fs.regIno, -1, build_uid_map fs.users store⟩ ∧
      ∀ a : Int, idxFind (build_uid_map fs.users store) a =
        (fs.users.flatten.find?
            (fun e => toAppId e.2 == a && (alFindStore store e.1).isSome)).map
          (fun e => [e.1])) := by
  refine ⟨?_, ?_, ?_⟩
  · intro h
    simp [update_uid_map, h]
  · by_cases h : s.ino = fs.regIno
    · simp [update_uid_map, h]
    · have hne : (s.ino == fs.regIno) = false := by simpa using h
      by_cases hd : fs.dataDirOk = true
      · simp [update_uid_map, hne, hd]
      · simp [update_uid_map, hne, hd]
  · intro h hd
    have hne : (s.ino == fs.regIno) = false := by simpa using h
    exact ⟨by simp [update_uid_map, hne, hd],
           fun a => build_uid_map_find store fs.users a⟩

/-- Witness for claim C5's theorem: a changed inode rebuilds the index from
the app-data tree, and an unchanged inode is a no-op. -/
theorem claim_C5_witness :
    update_uid_map ⟨7, true, [[("com.a", 5)]]⟩ [("com.a", ["com.a"])]
        ⟨0, 3, [(9, ["zz"])]⟩ = ⟨7, -1, [(5, ["com.a"])]⟩ ∧
    update_uid_map ⟨7, true, [[("com.a", 5)]]⟩ [("com.a", ["com.a"])]
        ⟨7, 3, [(9, ["zz"])]⟩ = ⟨7, 3, [(9, ["zz"])]⟩ := by
  constructor
  · rw [((claim_C5_thm ⟨7, true, [[("com.a", 5)]]⟩ [("com.a", ["com.a"])]
        ⟨0, 3, [(9, ["zz"])]⟩).2.2 (by decide) rfl).1]
    decide
  · exact (claim_C5_thm ⟨7, true, [[("com.a", 5)]]⟩ [("com.a", ["com.a"])]
      ⟨7, 3, [(9, ["zz"])]⟩).1 rfl

/-! ### Claim C6 -/

/-- Claim C6, as stated, is false: it allows any normal package made only
of alphanumeric/underscore/dot characters, but the `pkg_valid` flag of the
source only ever becomes true at a dot, so the dot-less package `"com"` is
rejected while the claim's grammar accepts it. -/
theorem claim_C6_counterexample :
    validate "com" "com" = false ∧ validate_claimed "com" "com" = true := by
  refine ⟨by decide, by decide⟩

/-- Claim C6 (amended): `validate` accepts exactly — for the reserved
sandboxed-worker token, proc whose characters before the first colon (or
all of proc without one) are alphanumeric/underscore/dot; for a normal
package, pkg made of alphanumeric/underscore/dot characters AND containing
at least one dot, with proc made of alphanumeric/underscore/colon/dot
characters; everything else is rejected. -/
theorem claim_C6_thm (pkg proc : String) :
    validate pkg proc = validate_amended pkg proc := by
  unfold validate validate_amended
  by_cases h : (pkg == ISOLATED_MAGIC) = true
  · simp [h, proc_scan_isolated_eq]
  · simp only [Bool.not_eq_true] at h
    simp [h, pkg_scan_eq, proc_scan_normal_eq]

/-! ### Claim C8 -/

/-- Claim C8: `check_uid_map` short-circuits to 0 with no engine work (no
state change, no kill side effects) whenever the enabled flag is false, and
exactly evaluates `is_hide_target` with the default `max_len`, mapping its
boolean to 1/0, when the flag is true. -/
theorem claim_C8_thm (env : Env) (st : HideState) (uid : Nat) (process : String) :
    (st.hideEnabled = false → check_uid_map env st uid process = (st, [], some 0)) ∧
    (st.hideEnabled = true → check_uid_map env st uid process =
      ((is_hide_target env st uid process default_max_len).1,
       (is_hide_target env st uid process default_max_len).2.1,
       (is_hide_target env st uid process default_max_len).2.2.map
         (fun b => if b then 1 else 0))) := by
  constructor
  · intro h
    simp [check_uid_map, h]
  · intro h
    simp [check_uid_map, h]

/-- Witness for claim C8's theorem: with the feature off the probe answers
0 and leaves the (would-be dirty) state untouched; with it on, the same
query goes through the match engine. -/
theorem claim_C8_witness :
    check_uid_map exEnvIdle exStFresh 5 "p" = (exStFresh, [], some 0) ∧
    check_uid_map exEnvIdle exStEmpty 5 "p" =
      ((is_hide_target exEnvIdle exStEmpty 5 "p" default_max_len).1,
       (is_hide_target exEnvIdle exStEmpty 5 "p" default_max_len).2.1,
       (is_hide_target exEnvIdle exStEmpty 5 "p" default_max_len).2.2.map
         (fun b => if b then 1 else 0)) := by
  exact ⟨(claim_C8_thm exEnvIdle exStFresh 5 "p").1 rfl,
         (claim_C8_thm exEnvIdle exStEmpty 5 "p").2 rfl⟩

/-! ### Claim C3 -/

/-- Claim C3: on an initialized engine, adding an already-present valid
(pkg, proc) pair (empty proc defaulting to pkg first) returns the
already-exists status with the in-memory store untouched, no kill and no
database write; adding a brand-new valid pair inserts it and, before the
status is produced, reaps — every live process whose command line starts
with proc for the sandboxed-worker wildcard package, and the (first) live
process whose command line equals proc otherwise — then attempts the
database write, succeeding iff it does. -/
theorem claim_C3_thm (env : Env) (dbOk : Bool) (st : HideState) (store : Store)
    (idx : UidIdx) (pkg proc0 : String)
    (hs : st.pkgToProcs = some store) (hi : st.appIdToPkgs = some idx)
    (hv : validate pkg (procOrPkg pkg proc0) = true) :
    (storeHasPair store pkg (procOrPkg pkg proc0) = true →
      add_hide_list env dbOk st pkg proc0 = (st, Status.HIDE_ITEM_EXIST, [], false)) ∧
    (storeHasPair store pkg (procOrPkg pkg proc0) = false →
      add_hide_list env dbOk st pkg proc0 =
        ({ st with
            pkgToProcs := some (storeEmplace store pkg (procOrPkg pkg proc0)).1,
            appIdToPkgs :=
              some (update_pkg_uid env.fs idx (procOrPkg pkg proc0) false) },
         if dbOk then Status.DAEMON_SUCCESS else Status.DAEMON_ERROR,
         (if pkg == ISOLATED_MAGIC then
            (env.live.filter (fun p => str_starts p.2 (procOrPkg pkg proc0))).map
              Prod.fst
          else
            ((env.live.find? (fun p => str_eql p.2 (procOrPkg pkg proc0))).map
              Prod.fst).toList),
         true)) := by
  have hinit := init_list_inited env st store hs
  constructor
  · intro h
    simp only [add_hide_list, add_hide_pre, hv, hinit, removeKilled_nil, hs,
      Option.getD_some, add_hide_set,
      storeEmplace_of_hasPair store pkg (procOrPkg pkg proc0) h]
    simp
  · intro h
    cases hse : storeEmplace store pkg (procOrPkg pkg proc0) with
    | mk store2 ins =>
      have hins : ins = true := by
        have := storeEmplace_snd_of_not_hasPair store pkg (procOrPkg pkg proc0) h
        rw [hse] at this
        exact this
      subst hins
      by_cases hiso : (pkg == ISOLATED_MAGIC) = true
      · simp only [add_hide_list, add_hide_pre, hv, hinit, removeKilled_nil, hs, hi,
          Option.getD_some, add_hide_set, hse, hiso, if_true,
          kill_process_multi]
        simp
      · simp only [Bool.not_eq_true] at hiso
        simp only [add_hide_list, add_hide_pre, hv, hinit, removeKilled_nil, hs, hi,
          Option.getD_some, add_hide_set, hse, hiso, Bool.false_eq_true, if_false,
          kill_process_single]
        simp

/-- Witness for claim C3's theorem, the spec's end-to-end scenario: on an
enabled engine with an empty list, `add("com.evil", "")` defaults the
process name to the package, inserts the pair, kills the live process whose
command line is exactly `com.evil` (pid 42) and returns success having
written the row. -/
theorem claim_C3_witness :
    add_hide_list exEnvEvil true exStEmpty "com.evil" "" =
      (⟨some [("com.evil", ["com.evil"])], some [], true, 7, -1, true⟩,
       Status.DAEMON_SUCCESS, [42], true) := by
  rw [(claim_C3_thm exEnvEvil true exStEmpty [] [] "com.evil" "" rfl rfl
        (by decide)).2 (by decide)]
  decide

/-! ### Claim C4 -/

/-- Claim C4, as stated, is false in its index clause: after removing a
whole package, the source only erases the association found by re-scanning
the CURRENT app-data tree (first matching user, then `break`), so a stale
association survives.  Concretely: the index maps app id 5 to `com.a`, but
`com.a`'s data directory no longer exists; `rm("com.a", "")` removes the
package from the store and reports success, yet the index still associates
app id 5 with `com.a`. -/
theorem claim_C4_counterexample :
    rm_hide_list exEnvIdle true exStA "com.a" "" =
      (⟨some [], some [(5, ["com.a"])], true, 7, -1, true⟩,
       Status.DAEMON_SUCCESS, [], true) ∧
    idxFind [(5, ["com.a"])] 5 = some ["com.a"] := by
  refine ⟨by decide, by decide⟩

/-- Claim C4 (amended): on an initialized engine, `remove(pkg, proc)` with
empty proc removes the package with all its process names in one step; with
non-empty proc it removes only that name, dropping the package entry when
the set empties; when nothing matches it returns the not-found status with
nothing changed.  In both package-removal cases the index update removes
`pkg` only from the bucket of the app identity derived from the first user
directory currently containing `pkg` (dropping an emptied bucket); when the
scan finds no directory the index is unchanged; consequently the claimed
"no app identity associates the package afterwards" holds exactly when
every bucket holding `pkg` is the one the scan finds. -/
theorem claim_C4_thm (env : Env) (dbOk : Bool) (st : HideState) (store : Store)
    (idx : UidIdx) (pkg proc : String)
    (hs : st.pkgToProcs = some store) (hi : st.appIdToPkgs = some idx)
    (hkeys : storeKeysNodup store) :
    (alFindStore store pkg = none →
      rm_hide_list env dbOk st pkg proc = (st, Status.HIDE_ITEM_NOT_EXIST, [], false)) ∧
    (∀ procs, alFindStore store pkg = some procs → proc ≠ "" →
      procs.contains proc = false →
      rm_hide_list env dbOk st pkg proc = (st, Status.HIDE_ITEM_NOT_EXIST, [], false)) ∧
    (alFindStore store pkg ≠ none → proc = "" →
      rm_hide_list env dbOk st pkg proc =
        ({ st with pkgToProcs := some (storeErase store pkg),
                   appIdToPkgs := some (update_pkg_uid env.fs idx pkg true) },
         if dbOk then Status.DAEMON_SUCCESS else Status.DAEMON_ERROR, [], true) ∧
      alFindStore (storeErase store pkg) pkg = none) ∧
    (∀ procs, alFindStore store pkg = some procs → proc ≠ "" →
      procs.contains proc = true →
      ((procs.filter (fun s => !(s == proc))).isEmpty = true →
        rm_hide_list env dbOk st pkg proc =
          ({ st with pkgToProcs := some (storeErase store pkg),
                     appIdToPkgs := some (update_pkg_uid env.fs idx pkg true) },
           if dbOk then Status.DAEMON_SUCCESS else Status.DAEMON_ERROR, [], true)) ∧
      ((procs.filter (fun s => !(s == proc))).isEmpty = false →
        rm_hide_list env dbOk st pkg proc =
          ({ st with pkgToProcs := some (storeSet store pkg (procs.filter (fun s => !(s == proc)))) },
           if dbOk then Status.DAEMON_SUCCESS else Status.DAEMON_ERROR, [], true))) ∧
    (∀ uid, env.fs.dataDirOk = true → findPkgUid env.fs.users pkg = some uid →
      idxKeysNodup idx → (∀ bu ∈ idx, pkg ∈ bu.2 → bu.1 = toAppId uid) →
      ∀ bu ∈ update_pkg_uid env.fs idx pkg true, pkg ∉ bu.2) := by
  have hinit := init_list_inited env st store hs
  refine ⟨?_, ?_, ?_, ?_, ?_⟩
  · intro h
    simp only [rm_hide_list, rm_hide_pre, hinit, hs, hi, Option.getD_some, h]
  · intro procs h hproc hmem
    have hpe : (proc == "") = false := by
      simp only [beq_eq_false_iff_ne, ne_eq]
      exact hproc
    simp only [rm_hide_list, rm_hide_pre, hinit, hs, hi, Option.getD_some, h, hpe,
      Bool.false_eq_true, if_false, hmem]
  · intro h hproc
    subst hproc
    cases hf : alFindStore store pkg with
    | none => exact absurd hf h
    | some procs =>
      refine ⟨?_, alFindStore_erase_self store pkg hkeys⟩
      simp only [rm_hide_list, rm_hide_pre, hinit, hs, hi, Option.getD_some, hf]
      simp
  · intro procs h hproc hmem
    have hpe : (proc == "") = false := by
      simp only [beq_eq_false_iff_ne, ne_eq]
      exact hproc
    constructor
    · intro hemp
      simp only [rm_hide_list, rm_hide_pre, hinit, hs, hi, Option.getD_some, h, hpe,
        Bool.false_eq_true, if_false, hmem, if_true, hemp]
    · intro hemp
      simp only [rm_hide_list, rm_hide_pre, hinit, hs, hi, Option.getD_some, h, hpe,
        Bool.false_eq_true, if_false, hmem, if_true, hemp]
  · intro uid hdd hfind hnodup honly
    simp only [update_pkg_uid, hdd, if_true, hfind]
    exact idxErasePkg_no_assoc idx (toAppId uid) pkg hnodup honly

/-- Witness for claim C4's theorem: removing package `com.a` (empty proc)
from an engine where its data directory is owned by uid 5 erases the store
entry and the only index association, and returns success. -/
theorem claim_C4_witness :
    rm_hide_list exEnvA true exStA "com.a" "" =
      (⟨some [], some [], true, 7, -1, true⟩, Status.DAEMON_SUCCESS, [], true) ∧
    ∀ bu ∈ update_pkg_uid exEnvA.fs [(5, ["com.a"])] "com.a" true, "com.a" ∉ bu.2 := by
  have h := claim_C4_thm exEnvA true exStA [("com.a", ["com.a"])] [(5, ["com.a"])]
    "com.a" "" rfl rfl (by unfold storeKeysNodup; decide)
  constructor
  · rw [(h.2.2.1 (by decide) rfl).1]
    decide
  · exact h.2.2.2.2 5 rfl (by decide) (by unfold idxKeysNodup; decide) (by decide)

/-! ### Claim C7 -/

/-- The locked phase of add never early-returns a success status. -/
theorem add_hide_pre_some_ne (env : Env) (st : HideState) (pkg proc0 : String) :
    ∀ st' s ks, add_hide_pre env st pkg proc0 = (st', some s, ks) →
      s ≠ Status.DAEMON_SUCCESS := by
  intro st' s ks h hss
  subst hss
  simp only [add_hide_pre] at h
  split at h
  all_goals try split at h
  all_goals try split at h
  all_goals simp at h

/-- The locked phase of remove never early-returns a success status. -/
theorem rm_hide_pre_some_ne (env : Env) (st : HideState) (pkg proc : String) :
    ∀ st' s ks, rm_hide_pre env st pkg proc = (st', some s, ks) →
      s ≠ Status.DAEMON_SUCCESS := by
  intro st' s ks h hss
  subst hss
  simp only [rm_hide_pre] at h
  split at h
  all_goals try split at h
  all_goals try split at h
  all_goals try split at h
  all_goals try split at h
  all_goals simp at h

/-- Claim C7: the database write outcome influences only the returned
status, never the in-memory structures — for every add and remove call the
resulting state with a failing write equals the state with a successful
one, and whenever the successful-write call reports success (i.e. the
in-memory structural change happened and the write stage was reached) the
failing-write call reports the generic error instead of rolling back. -/
theorem claim_C7_thm (env : Env) (st : HideState) (pkg proc : String) :
    ((add_hide_list env false st pkg proc).1 = (add_hide_list env true st pkg proc).1 ∧
      ((add_hide_list env true st pkg proc).2.1 = Status.DAEMON_SUCCESS →
        (add_hide_list env false st pkg proc).2.1 = Status.DAEMON_ERROR)) ∧
    ((rm_hide_list env false st pkg proc).1 = (rm_hide_list env true st pkg proc).1 ∧
      ((rm_hide_list env true st pkg proc).2.1 = Status.DAEMON_SUCCESS →
        (rm_hide_list env false st pkg proc).2.1 = Status.DAEMON_ERROR)) := by
  constructor
  · cases hp : add_hide_pre env st pkg proc with
    | mk st' r =>
      obtain ⟨os, ks⟩ := r
      cases os with
      | none => simp [add_hide_list, hp]
      | some s =>
        refine ⟨by simp [add_hide_list, hp], ?_⟩
        intro hsucc
        simp only [add_hide_list, hp] at hsucc
        exact absurd hsucc (add_hide_pre_some_ne env st pkg proc st' s ks hp)
  · cases hp : rm_hide_pre env st pkg proc with
    | mk st' r =>
      obtain ⟨os, ks⟩ := r
      cases os with
      | none => simp [rm_hide_list, hp]
      | some s =>
        refine ⟨by simp [rm_hide_list, hp], ?_⟩
        intro hsucc
        simp only [rm_hide_list, hp] at hsucc
        exact absurd hsucc (rm_hide_pre_some_ne env st pkg proc st' s ks hp)

/-- Witness for claim C7's theorem: the same add with a failing insert
returns the generic error but leaves exactly the state the successful call
produces. -/
theorem claim_C7_witness :
    (add_hide_list exEnvEvil false exStEmpty "com.evil" "").1 =
      (add_hide_list exEnvEvil true exStEmpty "com.evil" "").1 ∧
    (add_hide_list exEnvEvil false exStEmpty "com.evil" "").2.1 =
      Status.DAEMON_ERROR := by
  have h := claim_C7_thm exEnvEvil exStEmpty "com.evil" ""
  exact ⟨h.1.1, h.1.2 (by decide)⟩

/-! ### Claim C2 -/

/-- Claim C2 at its failing input.  The per-call behavior it describes is
real — conjuncts 1-3: a kernel without the namespace primitive yields
`HIDE_NO_NS` with the state untouched, and a failed bulk load rolls the
enabled flag back with an error.  But the rollback does not free the
partially loaded store (`init_list`'s error path keeps `pkg_to_procs_`
allocated holding the rows delivered before the failure), so a retried
`launch()` treats the engine as initialized and returns success with the
enabled flag true over a store missing the persisted row
`("com.b","com.b")` — refuting "launch() never leaves the enabled flag
true with an uninitialized or partially initialized store".  (In the C++,
that second call moreover dereferences the still-null `app_id_to_pkgs_`
inside its final `update_uid_map()`.) -/
theorem claim_C2_thm :
    launch_magiskhide exEnvNoNs exStFresh = (exStFresh, Status.HIDE_NO_NS, []) ∧
    (launch_magiskhide exEnvFailLoad exStFresh).2.1 = Status.DAEMON_ERROR ∧
    (launch_magiskhide exEnvFailLoad exStFresh).1.hideEnabled = false ∧
    (launch_magiskhide exEnvFailLoad exStFresh).1.pkgToProcs =
      some [("com.a", ["com.a"])] ∧
    launch_magiskhide exEnvOkLoad (launch_magiskhide exEnvFailLoad exStFresh).1 =
      (⟨some [("com.a", ["com.a"])], some [], true, 7, -1, true⟩,
       Status.DAEMON_SUCCESS, []) ∧
    ("com.b", "com.b") ∈ exEnvOkLoad.dbRows ∧
    alFindStore [("com.a", ["com.a"])] "com.b" = none := by
  refine ⟨by decide, by decide, by decide, by decide, by decide, by decide, by decide⟩

/-! ### Claim C9 -/

/-- Claim C9 at its failing input.  The invariant — every package stored in
a uid-index bucket is a `pkg_to_procs` key — holds on the empty initialized
engine, but line 233 passes `*p.first`, the PROCESS name, to
`update_pkg_uid` where the spec's fast path takes the package name.  So
`add("com.a","com.b")`, with an installed (non-hidden) package directory
`com.b` owned by uid 10123, indexes app id 10123 → `"com.b"`, which is not
a store key: the invariant is broken by the add fast path, and the
unguarded `pkg_to_procs.find(pkg)->second` of `is_hide_target`'s normal
regime then dereferences a missing key (undefined behavior, the `none`
below). -/
theorem claim_C9_thm :
    idx_pkgs_sub [] [] = true ∧
    add_hide_list exEnvB true exStEmpty "com.a" "com.b" =
      (exStBroken, Status.DAEMON_SUCCESS, [], true) ∧
    idx_pkgs_sub [("com.a", ["com.b"])] [(10123, ["com.b"])] = false ∧
    (is_hide_target exEnvB exStBroken 10123 "x" 1024).2.2 = none := by
  refine ⟨by decide, by decide, by decide, by decide⟩

/-! ### Claim C10 -/

/-- Claim C10: `str_ends_safe` rejects the process named exactly
`webview_zygote` against every suffix, so the enable-time safety sweep —
which also exact-kills the worker pools — never kills a pid all of whose
live entries are named `webview_zygote`, at any SDK level. -/
theorem claim_C10_thm (live : Live) (pid : Nat)
    (h : ∀ cmd, (pid, cmd) ∈ live → cmd = "webview_zygote") :
    (∀ ss, str_ends_safe "webview_zygote" ss = false) ∧
    ∀ sdk, pid ∉ launch_sweep live sdk := by
  have hsafe : ∀ ss, str_ends_safe "webview_zygote" ss = false := by
    intro ss
    simp [str_ends_safe]
  have key : ∀ (lv : Live) (n : String) (f : String → String → Bool),
      (∀ cmd, (pid, cmd) ∈ lv → cmd = "webview_zygote") →
      f "webview_zygote" n = false → pid ∉ kill_process lv n true f := by
    intro lv n f hl hf hmem
    rw [kill_process_multi] at hmem
    rcases List.mem_map.mp hmem with ⟨x, hx, hpx⟩
    rcases List.mem_filter.mp hx with ⟨hxl, hxf⟩
    have hxmem : (pid, x.2) ∈ lv := by
      rcases x with ⟨a, b⟩
      simp only at hpx
      subst hpx
      exact hxl
    have hcmd : x.2 = "webview_zygote" := hl x.2 hxmem
    rw [hcmd, hf] at hxf
    exact Bool.false_ne_true hxf
  refine ⟨hsafe, ?_⟩
  intro sdk
  by_cases hs : 29 ≤ sdk
  · simp only [launch_sweep, hs, if_true]
    intro hmem
    have h1 : ∀ cmd, (pid, cmd) ∈ removeKilled live
        (kill_process live "usap32" true (fun cmd n => str_eql cmd n)) →
        cmd = "webview_zygote" :=
      fun cmd hc => h cmd (List.mem_filter.mp hc).1
    have h2 : ∀ cmd, (pid, cmd) ∈ removeKilled
        (removeKilled live (kill_process live "usap32" true (fun cmd n => str_eql cmd n)))
        (kill_process
          (removeKilled live (kill_process live "usap32" true (fun cmd n => str_eql cmd n)))
          "usap64" true (fun cmd n => str_eql cmd n)) →
        cmd = "webview_zygote" :=
      fun cmd hc => h1 cmd (List.mem_filter.mp hc).1
    rcases List.mem_append.mp hmem with hk12 | hk3
    · rcases List.mem_append.mp hk12 with hk1 | hk2
      · exact key live "usap32" (fun cmd n => str_eql cmd n) h (by decide) hk1
      · exact key _ "usap64" (fun cmd n => str_eql cmd n) h1 (by decide) hk2
    · exact key _ "_zygote" (fun cmd n => str_ends_safe cmd n) h2
        (hsafe "_zygote") hk3
  · simp [launch_sweep, hs]

/-- Witness for claim C10's theorem: the sweep over a table holding
`webview_zygote` (pid 1) and `app_zygote` (pid 2) never kills pid 1. -/
theorem claim_C10_witness :
    (1 : Nat) ∉ launch_sweep [(1, "webview_zygote"), (2, "app_zygote")] 29 := by
  refine (claim_C10_thm [(1, "webview_zygote"), (2, "app_zygote")] 1 ?_).2 29
  intro cmd hc
  simp only [List.mem_cons] at hc
  rcases hc with hc | hc | hc
  · simpa using hc
  · simp at hc
  · simp at hc

end HideEngine
